import Mathlib

/-!
Shallow embedding of the tinioc dependency-injection container engine.

The canonical engine (`Container` in the multi-parent variant) holds a local
map from identifiers to factories plus an ordered list of parent containers.
JavaScript `Map` objects are modelled extensionally as functions
`ID → Option (Factory V)`; identifiers (`string | symbol`) are modelled by the
inductive `ID`; factories are functions from the injected request capability
to a result, with `Except RErr` standing for value-or-thrown-error and an
`outOfFuel` marker representing nonterminating executions of the source.
-/

namespace Tinioc

/-- `ID` models the TypeScript `ID = string | symbol` identifier type. -/
inductive ID : Type where
  | str (s : String)
  | sym (s : String)
deriving DecidableEq

/-- Engine-level failure: `bindingNotFound` models a thrown
`BindingNotFoundError(id)`; `outOfFuel` marks an execution whose call depth
exceeds the embedding's fuel, i.e. a nonterminating source execution. -/
inductive RErr : Type where
  | bindingNotFound (id : ID)
  | outOfFuel
deriving DecidableEq

/-- A factory receives the injected request capability (the bound `get`)
and produces a value or an error, mirroring `FactoryOf<T> = (inject: Inject) => T`. -/
def Factory (V : Type) : Type := (ID → Except RErr V) → Except RErr V

/-- The multi-parent container of the canonical engine: a local bindings map
plus an ordered list of parent containers (`parents: Container[]`). -/
inductive Container (V : Type) : Type where
  | mk (bindings : ID → Option (Factory V)) (parents : List (Container V)) : Container V

/-- Projection: the local bindings map (`this.bindings`). -/
def Container.localBindings {V : Type} : Container V → ID → Option (Factory V)
  | .mk bs _ => bs

/-- Projection: the ordered parents list (`this.parents`). -/
def Container.parentsOf {V : Type} : Container V → List (Container V)
  | .mk _ ps => ps

/-- `register(id, factory)`: insert or overwrite the local entry
(`this.bindings.set(id, value)`). -/
def Container.register {V : Type} : Container V → ID → Factory V → Container V
  | .mk bs ps, id, f => .mk (fun j => if j = id then some f else bs j) ps

/-- `remove(id)`: delete the local entry (`this.bindings.delete(id)`). -/
def Container.remove {V : Type} : Container V → ID → Container V
  | .mk bs ps, id => .mk (fun j => if j = id then none else bs j) ps

/-- `isRegisteredHere(id)`: `this.bindings.has(id)`. -/
def Container.isRegisteredHere {V : Type} (c : Container V) (id : ID) : Bool :=
  (c.localBindings id).isSome

mutual

/-- `isRegistered(id)`: `this.isRegisteredHere(id) || this.parents.some(p => p.isRegistered(id))`. -/
def Container.isRegistered {V : Type} : Container V → ID → Bool
  | .mk bs ps, id =>
    (Container.mk bs ps).isRegisteredHere id || Container.isRegisteredList ps id

/-- The `parents.some(...)` traversal of `isRegistered`, unfolded on the list. -/
def Container.isRegisteredList {V : Type} : List (Container V) → ID → Bool
  | [], _ => false
  | p :: rest, id => p.isRegistered id || Container.isRegisteredList rest id

end

mutual

/-- `findBinding(id)`: local lookup first, then the parents in order, each
searched recursively; the first hit wins. -/
def Container.findBinding {V : Type} : Container V → ID → Option (Factory V)
  | .mk bs ps, id =>
    match bs id with
    | some f => some f
    | none => Container.findBindingList ps id

/-- The `for` loop of `findBinding` over the parents array. -/
def Container.findBindingList {V : Type} : List (Container V) → ID → Option (Factory V)
  | [], _ => none
  | p :: rest, id =>
    match p.findBinding id with
    | some f => some f
    | none => Container.findBindingList rest id

end

/-- `get(id)`: resolve the factory with `findBinding`, throw
`BindingNotFoundError(id)` on a miss, otherwise invoke the factory with
`this.get.bind(this)` — the request capability bound to the original
container.  `fuel` bounds the depth of nested factory invocations; running
out of fuel marks a nonterminating source execution. -/
def Container.get {V : Type} (c : Container V) (fuel : Nat) (id : ID) : Except RErr V :=
  match c.findBinding id with
  | none => .error (.bindingNotFound id)
  | some f =>
    match fuel with
    | 0 => .error .outOfFuel
    | n + 1 => f (fun j => c.get n j)

/-- `createChild()`: a fresh container whose sole parent is the receiver
(`new Container()` followed by `extend(this)` on an empty parents array). -/
def Container.createChild {V : Type} (c : Container V) : Container V :=
  .mk (fun _ => none) [c]

mutual

/-- Specification-side priority order: the hierarchy flattened self-first,
then each parent's own flattening recursively, in list order ("identical to
flattening the ancestor hierarchy into a single priority order"). -/
def Container.flattenOrder {V : Type} : Container V → List (Container V)
  | .mk bs ps => Container.mk bs ps :: Container.flattenOrderList ps

/-- Flattening of a list of containers, left to right. -/
def Container.flattenOrderList {V : Type} : List (Container V) → List (Container V)
  | [] => []
  | p :: rest => p.flattenOrder ++ Container.flattenOrderList rest

end

/-- Specification-side selection: the first container in the priority order
whose local map binds `id` supplies the factory. -/
def firstMatchIn {V : Type} (l : List (Container V)) (id : ID) : Option (Factory V) :=
  l.findSome? (fun d => d.localBindings id)

/-- State-threading rendering of `get`: the body is `get` with the container
state returned alongside the result at every exit point; the source performs
no writes on this path, so each branch hands back the state it received. -/
def Container.getS {V : Type} (c : Container V) (fuel : Nat) (id : ID) :
    Except RErr V × Container V :=
  match c.findBinding id with
  | none => (.error (.bindingNotFound id), c)
  | some f =>
    match fuel with
    | 0 => (.error .outOfFuel, c)
    | n + 1 => (f (fun j => (c.getS n j).1), c)

/-- State-threading rendering of `isRegistered` (a pure read in the source). -/
def Container.isRegisteredS {V : Type} (c : Container V) (id : ID) :
    Bool × Container V :=
  (c.isRegistered id, c)

/-- State-threading rendering of `isRegisteredHere` (a pure read in the source). -/
def Container.isRegisteredHereS {V : Type} (c : Container V) (id : ID) :
    Bool × Container V :=
  (c.isRegisteredHere id, c)

/-!
`extend(...containers)` operates on the parents array by object identity
(`this.parents.includes(container)`). Object identities are modelled as
natural numbers, and the operation as a function on the identity list:
`containers.forEach(c => { if (!parents.includes(c)) parents.push(c) })`.
-/

/-- The effect of `extend` on the parents list, identities as `Nat`. -/
def extendParents (ps : List Nat) (args : List Nat) : List Nat :=
  args.foldl (fun acc c => if c ∈ acc then acc else acc ++ [c]) ps

/-- Specification-side helper: the argument list with only the first
appearance of each identity kept, in order of first appearance. -/
def dedupFirst (args : List Nat) : List Nat :=
  args.foldl (fun acc c => if c ∈ acc then acc else acc ++ [c]) []

/-!
The Record-backed single-parent variant (`container.ts`), which owns the
static `merge`. Its `bindings: Record<ID, ...> = {}` is a plain JavaScript
object, so property reads (`this.bindings[id]`) traverse the prototype
chain — an unregistered name such as `toString` resolves to the inherited
`Object.prototype.toString`, a function — and property writes at the string
key `__proto__` invoke the inherited accessor setter (replacing the record's
[[Prototype]] with the assigned factory object) instead of creating an own
entry. The model renders a record as its own-entry list in insertion order
plus a flag recording whether the [[Prototype]] is still `Object.prototype`
— the state of every record on which `__proto__` was never assigned. Reads
are modelled for that intact state; theorems about reads restrict to it.
-/

/-- Outcome of the Record-variant engine: a factory's value, a thrown
engine error (or the out-of-fuel divergence marker), or `builtinInvoked`:
control was handed to an inherited `Object.prototype` method instead of a
registered factory, and whatever that built-in returns or throws is what the
caller sees — in particular never an engine `BindingNotFoundError`. -/
inductive ROutcome (V : Type) : Type where
  | ok (v : V)
  | err (e : RErr)
  | builtinInvoked (name : String)

/-- A factory of the Record-backed variant receives the resolution context
(`{ get }`, identified with its single `get` field) and produces an outcome,
mirroring `FactoryOf<T> = (context: Context) => T`. -/
def RFactory (V : Type) : Type := (ID → ROutcome V) → ROutcome V

/-- Own-property lookup on the own-entry list: first entry with the key. -/
def lookupOwn {A : Type} : List (ID × A) → ID → Option A
  | [], _ => none
  | (k, v) :: rest, id => if k = id then some v else lookupOwn rest id

/-- Own-property assignment on the own-entry list: overwrite in place when
present, append when new. -/
def setOwn {A : Type} : List (ID × A) → ID → A → List (ID × A)
  | [], id, f => [(id, f)]
  | (k, v) :: rest, id, f =>
    if k = id then (id, f) :: rest else (k, v) :: setOwn rest id f

/-- Is this identifier a symbol? -/
def ID.isSym : ID → Bool
  | .sym _ => true
  | .str _ => false

/-- Is this identifier a string? -/
def ID.isStr : ID → Bool
  | .str _ => true
  | .sym _ => false

/-- The function-valued own properties of `Object.prototype` (ECMA-262):
reading any of these names on a plain-object record with intact prototype
yields an inherited function, which passes the variant's
`typeof dependency !== "function"` guard. -/
def objectProtoFunctionNames : List String :=
  ["constructor", "hasOwnProperty", "isPrototypeOf", "propertyIsEnumerable",
   "toLocaleString", "toString", "valueOf",
   "__defineGetter__", "__defineSetter__", "__lookupGetter__", "__lookupSetter__"]

/-- A property value as produced by a record read `this.bindings[id]`:
an own entry (a registered factory), an inherited `Object.prototype` method
(a function), or the prototype object itself (the `__proto__` getter's
result, which is an object, not a function). -/
inductive RProp (V : Type) : Type where
  | factory (f : RFactory V)
  | builtin (name : String)
  | protoObject

/-- `this.bindings[id]` on a record whose [[Prototype]] is still
`Object.prototype`: an own entry shadows the chain; otherwise a string key
finds the inherited `Object.prototype` member — one of its function members,
or the `__proto__` accessor yielding the prototype object — and everything
else is `undefined`. `Object.prototype` has no symbol-keyed members that
plain bracket reads with this variant's `ID` type can reach. -/
def readProp {V : Type} (own : List (ID × RFactory V)) (id : ID) : Option (RProp V) :=
  match lookupOwn own id with
  | some f => some (.factory f)
  | none =>
    match id with
    | .str s =>
      if s ∈ objectProtoFunctionNames then some (.builtin s)
      else if s = "__proto__" then some RProp.protoObject
      else none
    | .sym _ => none

/-- The single-parent, Record-backed container variant: the own entries of
`bindings: Record<ID, ...>`, the intact-prototype flag of that record, and
`parent?: Container`. -/
inductive RContainer (V : Type) : Type where
  | mk (own : List (ID × RFactory V)) (protoIntact : Bool)
      (parent : Option (RContainer V)) : RContainer V

/-- Projection: the own entries of the bindings record. -/
def RContainer.ownOf {V : Type} : RContainer V → List (ID × RFactory V)
  | .mk own _ _ => own

/-- Projection: does the bindings record still have `Object.prototype` as its
[[Prototype]]? -/
def RContainer.protoIntactOf {V : Type} : RContainer V → Bool
  | .mk _ pr _ => pr

/-- Projection: the optional parent. -/
def RContainer.parentOf {V : Type} : RContainer V → Option (RContainer V)
  | .mk _ _ p => p

/-- The read `this.bindings[id]` on this container's record. -/
def RContainer.readPropOf {V : Type} (c : RContainer V) (id : ID) : Option (RProp V) :=
  readProp c.ownOf id

/-- `bind(id, value)`: the plain-object assignment `this.bindings[id] = value`.
At the string key `__proto__` the assignment invokes the inherited accessor
setter: the factory (a function object) replaces the record's [[Prototype]]
and no own binding is created — modelled by clearing the intact flag. Every
other key creates or overwrites an own entry. -/
def RContainer.bind {V : Type} : RContainer V → ID → RFactory V → RContainer V
  | .mk own pr p, id, f =>
    if id = ID.str "__proto__" then .mk own false p
    else .mk (setOwn own id f) pr p

/-- `getBindingIds()`: own symbol keys then own string keys, each group in
insertion order (`getOwnPropertySymbols` then `getOwnPropertyNames`, which
enumerate own properties only, never the prototype chain). -/
def RContainer.getBindingIds {V : Type} (c : RContainer V) : List ID :=
  (c.ownOf.map Prod.fst).filter ID.isSym ++
    (c.ownOf.map Prod.fst).filter ID.isStr

mutual

/-- `_get(id)`: `this.bindings[id] ?? this.parent?._get(id)`. The record
read includes inherited `Object.prototype` members, which are not nullish,
so they short-circuit the `??` and the parent is never consulted for them. -/
def RContainer.rFind {V : Type} : RContainer V → ID → Option (RProp V)
  | .mk own _ p, id =>
    match readProp own id with
    | some v => some v
    | none => RContainer.rFindParent p id

/-- The optional chaining `this.parent?._get(id)`: `undefined` without a
parent, the parent's `_get` otherwise. -/
def RContainer.rFindParent {V : Type} : Option (RContainer V) → ID → Option (RProp V)
  | none, _ => none
  | some par, id => par.rFind id

end

/-- `get(id)` of the Record-backed variant: resolve with `_get`; throw
`BindingNotFoundError(id)` when the result is not a function (`undefined`,
or the prototype object from the `__proto__` getter); invoke the result with
the context bound to this container (`{ get: this.get.bind(this) }`) when it
is a function — a registered factory, or an inherited built-in whose own
outcome then stands in place of a factory's. -/
def RContainer.rGet {V : Type} (c : RContainer V) (fuel : Nat) (id : ID) : ROutcome V :=
  match c.rFind id with
  | none => .err (.bindingNotFound id)
  | some RProp.protoObject => .err (.bindingNotFound id)
  | some (RProp.builtin s) => .builtinInvoked s
  | some (RProp.factory f) =>
    match fuel with
    | 0 => .err .outOfFuel
    | n + 1 => f (fun j => c.rGet n j)

/-- The inner `forEach` of `merge`: rebind every enumerated own id of `c`
into `m` (`merged.bind(id, container.bindings[id])`). Every enumerated id is
an own key, so the read always yields the own factory; the other branches of
the `match` are dead. -/
def RContainer.bindAllFrom {V : Type} (c : RContainer V) (m : RContainer V) : RContainer V :=
  c.getBindingIds.foldl
    (fun m id =>
      match c.readPropOf id with
      | some (RProp.factory f) => m.bind id f
      | _ => m)
    m

/-- `static merge(...containers)`: fresh parentless container (a new record
with intact prototype), each input's own bindings rebound into it in input
order. -/
def RContainer.merge {V : Type} (cs : List (RContainer V)) : RContainer V :=
  cs.foldl (fun acc c => c.bindAllFrom acc) (.mk [] true none)

/-- Specification-side characterization of merged content: the factory of the
last input that binds `id` locally, ignoring every input's ancestors. -/
def lastOwn {V : Type} (cs : List (RContainer V)) (id : ID) : Option (RFactory V) :=
  cs.foldl
    (fun acc c =>
      match lookupOwn c.ownOf id with
      | some f => some f
      | none => acc)
    none

/-- A record state reachable by the source's own API: `__proto__` can never
become an own key, because the assignment in `bind` hits the inherited setter
instead of creating an entry. -/
def recordWF {A : Type} (own : List (ID × A)) : Prop :=
  ID.str "__proto__" ∉ own.map Prod.fst

/-!
Error message construction (`utils.ts`):
`class BindingNotFoundError extends Error { constructor(id) { super(`...`) } }`.
-/

/-- `String(id)`: a string identifier displays as itself, a symbol as
`Symbol(description)`. -/
def displayOf : ID → String
  | .str s => s
  | .sym s => "Symbol(" ++ s ++ ")"

/-- The message built by the `BindingNotFoundError` constructor. -/
def bindingNotFoundMessage (id : ID) : String :=
  "Binding \"" ++ displayOf id ++ "\" not found!"

/-!
Concrete containers used by the witness theorems. All use `V = Nat`.
-/

/-- Constant factory producing `n` regardless of the injected context. -/
def okFactory (n : Nat) : Factory Nat := fun _ => .ok n

/-- Factory that requests identifier `j` through the injected context and
returns the requested value; used to observe which container the request
capability is bound to. -/
def requestFactory (j : ID) : Factory Nat := fun req => req j

/-- Empty root container of the canonical Map-backed engine. -/
def c2empty : Container Nat := .mk (fun _ => none) []

/-- A freshly constructed Record-backed container (`new Container()`):
empty own record, intact prototype, no parent. -/
def rEmpty : RContainer Nat := .mk [] true none

/-- Constant Record-variant factory producing 1. -/
def rFac1 : RFactory Nat := fun _ => .ok 1

/-- Constant Record-variant factory producing 2. -/
def rFac2 : RFactory Nat := fun _ => .ok 2

/-- Merge input binding `d` to `rFac1`. -/
def rA : RContainer Nat := .mk [(.str "d", rFac1)] true none

/-- Merge input binding `d` to `rFac2`; as the later input, it wins. -/
def rB : RContainer Nat := .mk [(.str "d", rFac2)] true none

/-- Parent of the override scenario: binds `x` to a factory requesting `y`,
and `y` to the constant 1. -/
def c3parent : Container Nat :=
  .mk
    (fun j =>
      if j = .str "x" then some (requestFactory (.str "y"))
      else if j = .str "y" then some (okFactory 1) else none)
    []

/-- Child of `c3parent` overriding `y` with the constant 2; `x` stays bound
only in the parent. -/
def c3child : Container Nat :=
  (c3parent.createChild).register (.str "y") (okFactory 2)

/-- Root binding `a` to a factory requesting `b`, and `b` to the constant 1. -/
def c6base : Container Nat :=
  .mk
    (fun j =>
      if j = .str "a" then some (requestFactory (.str "b"))
      else if j = .str "b" then some (okFactory 1) else none)
    []

/-- `c6base` after re-registering `b` with the constant 2. -/
def c6mut : Container Nat := c6base.register (.str "b") (okFactory 2)

/-- Root binding only `a`, used by the removal witness. -/
def c8ex : Container Nat :=
  .mk (fun j => if j = .str "a" then some (okFactory 1) else none) []

/-- Empty root container for the missing-binding scenario. -/
def c9empty : Container Nat := .mk (fun _ => none) []

/-- Strong induction over the container tree: to prove a property of every
container it suffices to prove it of `mk bs ps` from its truth at every
member of `ps`. -/
def Container.strongInd {V : Type} {motive : Container V → Prop}
    (h : ∀ bs ps, (∀ p, p ∈ ps → motive p) → motive (Container.mk bs ps)) :
    (c : Container V) → motive c
  | .mk bs ps => h bs ps (fun p hp => Container.strongInd h p)
termination_by c => sizeOf c
decreasing_by
  have h1 := List.sizeOf_lt_of_mem hp
  simp only [Container.mk.sizeOf_spec]
  omega

/-!
Helper lemmas shared by the claim theorems.
-/

/-- The `for` loop of `findBinding` over a parent list is the first match in
the concatenation of the parents' flattenings, given the members' own
characterizations. -/
theorem findBindingList_eq_firstMatch {V : Type} (ps : List (Container V))
    (ih : ∀ p, p ∈ ps → ∀ j, p.findBinding j = firstMatchIn p.flattenOrder j) (id : ID) :
    Container.findBindingList ps id = firstMatchIn (Container.flattenOrderList ps) id := by
  induction ps with
  | nil => rfl
  | cons p rest ihr =>
    have hp := ih p (by simp) id
    have hr := ihr (fun q hq j => ih q (by simp [hq]) j)
    simp only [Container.findBindingList, Container.flattenOrderList, firstMatchIn] at hp hr ⊢
    rw [List.findSome?_append, hp, hr]
    cases List.findSome? (fun d => d.localBindings id) p.flattenOrder <;> rfl

/-- `findBinding` equals the first match in the flattened priority order. -/
theorem findBinding_eq_firstMatch {V : Type} (c : Container V) :
    ∀ (id : ID), c.findBinding id = firstMatchIn c.flattenOrder id := by
  induction c using Container.strongInd with
  | h bs ps ih =>
    intro id
    have hl := findBindingList_eq_firstMatch ps ih id
    simp only [firstMatchIn] at hl
    simp only [Container.findBinding, Container.flattenOrder, firstMatchIn,
      List.findSome?_cons, Container.localBindings]
    rw [hl]
    cases bs id <;> rfl

/-- The `parents.some(...)` traversal is `List.any` of the recursive check. -/
theorem isRegisteredList_eq_any {V : Type} (ps : List (Container V)) (id : ID) :
    Container.isRegisteredList ps id = ps.any (fun p => p.isRegistered id) := by
  induction ps with
  | nil => rfl
  | cons p rest ihr =>
    simp only [Container.isRegisteredList, List.any_cons, ihr]

/-- `isRegistered` over a parent list, given member characterizations, is
`any` of local presence over the concatenated flattenings. -/
theorem isRegisteredList_eq_anyFlatten {V : Type} (ps : List (Container V))
    (ih : ∀ p, p ∈ ps → ∀ j,
      p.isRegistered j = p.flattenOrder.any (fun d => d.isRegisteredHere j)) (id : ID) :
    Container.isRegisteredList ps id
      = (Container.flattenOrderList ps).any (fun d => d.isRegisteredHere id) := by
  induction ps with
  | nil => rfl
  | cons p rest ihr =>
    have hp := ih p (by simp) id
    have hr := ihr (fun q hq j => ih q (by simp [hq]) j)
    simp only [Container.isRegisteredList, Container.flattenOrderList]
    rw [List.any_append, hp, hr]

/-- `isRegistered` is `any` of local presence over the priority order. -/
theorem isRegistered_eq_anyFlatten {V : Type} (c : Container V) :
    ∀ (id : ID), c.isRegistered id = c.flattenOrder.any (fun d => d.isRegisteredHere id) := by
  induction c using Container.strongInd with
  | h bs ps ih =>
    intro id
    have hl := isRegisteredList_eq_anyFlatten ps ih id
    simp only [Container.isRegistered, Container.flattenOrder, List.any_cons]
    rw [hl]

/-- The state handed back by `getS` is the state it received. -/
theorem getS_snd {V : Type} (c : Container V) (fuel : Nat) (id : ID) :
    (c.getS fuel id).2 = c := by
  rw [Container.getS.eq_def]
  cases h : c.findBinding id with
  | none => rfl
  | some f => cases fuel <;> rfl

/-- The result component of `getS` agrees with the pure `get`. -/
theorem getS_fst {V : Type} (c : Container V) :
    ∀ (fuel : Nat) (id : ID), (c.getS fuel id).1 = c.get fuel id := by
  intro fuel
  induction fuel with
  | zero =>
    intro id
    rw [Container.getS.eq_def, Container.get.eq_def]
    cases h : c.findBinding id <;> rfl
  | succ n ih =>
    intro id
    rw [Container.getS.eq_def, Container.get.eq_def]
    cases h : c.findBinding id with
    | none => rfl
    | some f =>
      show f (fun j => (c.getS n j).1) = f (fun j => c.get n j)
      exact congrArg f (funext fun j => ih j)

/-- Splitting the `extend` fold around a fixed existing segment `ps`: nothing
is ever inserted into `ps`, new identities accumulate after it. -/
theorem extendParents_split (ps : List Nat) :
    ∀ (args extra : List Nat),
      extendParents (ps ++ extra) args
        = ps ++ args.foldl (fun acc c => if c ∈ ps ∨ c ∈ acc then acc else acc ++ [c]) extra := by
  intro args
  induction args with
  | nil => intro extra; rfl
  | cons a rest ih =>
    intro extra
    simp only [extendParents, List.foldl_cons] at ih ⊢
    by_cases hps : a ∈ ps
    · rw [if_pos (List.mem_append.mpr (Or.inl hps)), if_pos (Or.inl hps)]
      exact ih extra
    · by_cases hex : a ∈ extra
      · rw [if_pos (List.mem_append.mpr (Or.inr hex)), if_pos (Or.inr hex)]
        exact ih extra
      · have hni : a ∉ ps ++ extra := by
          intro hmem
          rcases List.mem_append.mp hmem with h1 | h2
          · exact hps h1
          · exact hex h2
        rw [if_neg hni, if_neg (not_or.mpr ⟨hps, hex⟩), List.append_assoc]
        exact ih (extra ++ [a])

/-- The accumulated new-identity segment is the first-appearance dedup of the
arguments with the identities already in `ps` filtered away. -/
theorem extendParents_filter (ps : List Nat) :
    ∀ (args acc0 : List Nat),
      args.foldl (fun acc c => if c ∈ ps ∨ c ∈ acc then acc else acc ++ [c])
          (acc0.filter (fun c => decide (c ∉ ps)))
        = (args.foldl (fun acc c => if c ∈ acc then acc else acc ++ [c]) acc0).filter
            (fun c => decide (c ∉ ps)) := by
  intro args
  induction args with
  | nil => intro acc0; rfl
  | cons a rest ih =>
    intro acc0
    simp only [List.foldl_cons]
    by_cases hps : a ∈ ps
    · rw [if_pos (Or.inl hps)]
      by_cases hacc : a ∈ acc0
      · rw [if_pos hacc]
        exact ih acc0
      · rw [if_neg hacc]
        have hfil : (acc0 ++ [a]).filter (fun c => decide (c ∉ ps))
            = acc0.filter (fun c => decide (c ∉ ps)) := by
          rw [List.filter_append]
          simp [hps]
        rw [← hfil]
        exact ih (acc0 ++ [a])
    · have hmemf : a ∈ acc0.filter (fun c => decide (c ∉ ps)) ↔ a ∈ acc0 := by
        rw [List.mem_filter]
        simp [hps]
      by_cases hacc : a ∈ acc0
      · rw [if_pos (Or.inr (hmemf.mpr hacc)), if_pos hacc]
        exact ih acc0
      · rw [if_neg (not_or.mpr ⟨hps, fun h => hacc (hmemf.mp h)⟩), if_neg hacc]
        have hfil : (acc0 ++ [a]).filter (fun c => decide (c ∉ ps))
            = acc0.filter (fun c => decide (c ∉ ps)) ++ [a] := by
          rw [List.filter_append]
          simp [hps]
        rw [← hfil]
        exact ih (acc0 ++ [a])

/-- Closed form of `extend` on the parents list: the old list, followed by
the first appearance of each argument not already present. -/
theorem extendParents_closed (ps args : List Nat) :
    extendParents ps args = ps ++ (dedupFirst args).filter (fun c => decide (c ∉ ps)) := by
  have h1 := extendParents_split ps args []
  have h2 := extendParents_filter ps args []
  simp only [List.filter_nil] at h2
  rw [List.append_nil] at h1
  rw [h1, h2]
  simp only [dedupFirst]

/-- The `extend` fold only grows its accumulator. -/
theorem mem_extendFold (x : Nat) :
    ∀ (args acc : List Nat), x ∈ acc ∨ x ∈ args →
      x ∈ args.foldl (fun acc c => if c ∈ acc then acc else acc ++ [c]) acc := by
  intro args
  induction args with
  | nil =>
    intro acc h
    rcases h with h | h
    · exact h
    · cases h
  | cons a rest ih =>
    intro acc h
    simp only [List.foldl_cons]
    by_cases ha : a ∈ acc
    · rw [if_pos ha]
      apply ih
      rcases h with h | h
      · exact Or.inl h
      · rcases List.mem_cons.mp h with h2 | h2
        · exact Or.inl (h2 ▸ ha)
        · exact Or.inr h2
    · rw [if_neg ha]
      apply ih
      rcases h with h | h
      · exact Or.inl (List.mem_append.mpr (Or.inl h))
      · rcases List.mem_cons.mp h with h2 | h2
        · exact Or.inl (List.mem_append.mpr (Or.inr (by simp [h2])))
        · exact Or.inr h2

/-- Everything the `extend` fold produces came from the accumulator or the
arguments. -/
theorem mem_dedupFold (x : Nat) :
    ∀ (args acc : List Nat),
      x ∈ args.foldl (fun acc c => if c ∈ acc then acc else acc ++ [c]) acc →
      x ∈ acc ∨ x ∈ args := by
  intro args
  induction args with
  | nil => intro acc h; exact Or.inl h
  | cons a rest ih =>
    intro acc h
    simp only [List.foldl_cons] at h
    by_cases ha : a ∈ acc
    · rw [if_pos ha] at h
      rcases ih acc h with h1 | h1
      · exact Or.inl h1
      · exact Or.inr (List.mem_cons_of_mem a h1)
    · rw [if_neg ha] at h
      rcases ih (acc ++ [a]) h with h1 | h1
      · rcases List.mem_append.mp h1 with h2 | h2
        · exact Or.inl h2
        · exact Or.inr (List.mem_cons.mpr (Or.inl (by simpa using h2)))
      · exact Or.inr (List.mem_cons_of_mem a h1)

/-- Re-extending with the same arguments changes nothing. -/
theorem extendParents_idem (ps args : List Nat) :
    extendParents (extendParents ps args) args = extendParents ps args := by
  rw [extendParents_closed (extendParents ps args) args]
  have hnil : (dedupFirst args).filter (fun c => decide (c ∉ extendParents ps args)) = [] := by
    rw [List.filter_eq_nil_iff]
    intro a ha
    simp only [dedupFirst] at ha
    have hmem : a ∈ args := by
      rcases mem_dedupFold a args [] ha with h | h
      · cases h
      · exact h
    have hin : a ∈ extendParents ps args := by
      simp only [extendParents]
      exact mem_extendFold a args ps (Or.inr hmem)
    simp [hin]
  rw [hnil, List.append_nil]

/-- Own lookup after an own assignment. -/
theorem lookupOwn_setOwn {A : Type} (l : List (ID × A)) (id j : ID) (f : A) :
    lookupOwn (setOwn l id f) j = if id = j then some f else lookupOwn l j := by
  induction l with
  | nil => simp only [setOwn, lookupOwn]
  | cons kv rest ih =>
    obtain ⟨k, v⟩ := kv
    by_cases hk : k = id
    · subst hk
      by_cases hj : k = j <;> simp [setOwn, lookupOwn, hj]
    · by_cases hj : k = j
      · subst hj
        have hid : ¬(id = k) := fun h => hk h.symm
        simp [setOwn, lookupOwn, hk, hid]
      · simp [setOwn, lookupOwn, hk, hj, ih]

/-- A key occurs among a record's own keys exactly when its own lookup hits. -/
theorem mem_keys_iff_lookup {A : Type} (l : List (ID × A)) (j : ID) :
    j ∈ l.map Prod.fst ↔ (lookupOwn l j).isSome := by
  induction l with
  | nil => simp [lookupOwn]
  | cons kv rest ih =>
    obtain ⟨k, v⟩ := kv
    by_cases hk : k = j
    · subst hk
      simp [lookupOwn]
    · simp only [List.map_cons, List.mem_cons, lookupOwn, if_neg hk, ih]
      constructor
      · rintro (h | h)
        · exact absurd h.symm hk
        · exact h
      · exact Or.inr

/-- A record read is an own factory exactly when the own lookup hits it:
the inherited prototype members are never rendered as factories. -/
theorem readProp_factory_iff {V : Type} (own : List (ID × RFactory V)) (k : ID)
    (f : RFactory V) :
    readProp own k = some (RProp.factory f) ↔ lookupOwn own k = some f := by
  cases h : lookupOwn own k with
  | some g => simp [readProp, h]
  | none =>
    simp only [readProp, h]
    cases k with
    | sym s => simp
    | str s =>
      by_cases h1 : s ∈ objectProtoFunctionNames
      · simp [h1]
      · by_cases h2 : s = "__proto__"
        · subst h2
          simp [h1]
        · simp [h1, h2]

/-- An own entry shadows the prototype chain in a record read. -/
theorem readProp_own_hit {V : Type} (own : List (ID × RFactory V)) (j : ID)
    (f : RFactory V) (h : lookupOwn own j = some f) :
    readProp own j = some (RProp.factory f) := by
  simp [readProp, h]

/-- `getBindingIds` enumerates exactly the identifiers with an own binding. -/
theorem mem_getBindingIds_iff {V : Type} (c : RContainer V) (j : ID) :
    j ∈ c.getBindingIds ↔ (lookupOwn c.ownOf j).isSome := by
  simp only [RContainer.getBindingIds]
  rw [List.mem_append]
  constructor
  · rintro (h | h)
    · exact (mem_keys_iff_lookup _ j).mp (List.mem_of_mem_filter h)
    · exact (mem_keys_iff_lookup _ j).mp (List.mem_of_mem_filter h)
  · intro h
    have hj := (mem_keys_iff_lookup c.ownOf j).mpr h
    cases j with
    | str s => exact Or.inr (List.mem_filter.mpr ⟨hj, rfl⟩)
    | sym s => exact Or.inl (List.mem_filter.mpr ⟨hj, rfl⟩)

/-- On a record without an own `__proto__` key, every enumerated id differs
from `__proto__`. -/
theorem getBindingIds_ne_proto {V : Type} (c : RContainer V) (hwf : recordWF c.ownOf) :
    ∀ k, k ∈ c.getBindingIds → k ≠ ID.str "__proto__" := by
  intro k hk hkp
  subst hkp
  have hs := (mem_getBindingIds_iff c _).mp hk
  exact hwf ((mem_keys_iff_lookup c.ownOf _).mpr hs)

/-- `bind` does not touch the parent reference, on either branch. -/
theorem bind_parentOf {V : Type} (c : RContainer V) (id : ID) (f : RFactory V) :
    (c.bind id f).parentOf = c.parentOf := by
  cases c with
  | mk own pr p =>
    by_cases h : id = ID.str "__proto__" <;>
      simp [RContainer.bind, h, RContainer.parentOf]

/-- Away from `__proto__`, `bind` is the own assignment. -/
theorem bind_ownOf_of_ne {V : Type} (c : RContainer V) (id : ID) (f : RFactory V)
    (h : id ≠ ID.str "__proto__") :
    (c.bind id f).ownOf = setOwn c.ownOf id f := by
  cases c with
  | mk own pr p => simp [RContainer.bind, h, RContainer.ownOf]

/-- Away from `__proto__`, `bind` keeps the prototype intact. -/
theorem bind_protoIntact_of_ne {V : Type} (c : RContainer V) (id : ID) (f : RFactory V)
    (h : id ≠ ID.str "__proto__") :
    (c.bind id f).protoIntactOf = c.protoIntactOf := by
  cases c with
  | mk own pr p => simp [RContainer.bind, h, RContainer.protoIntactOf]

/-- Rebinding a list of `__proto__`-free keys out of `c` into `m`: a key of
`c` in the list ends up with `c`'s own factory, everything else keeps `m`'s
own binding. -/
theorem lookupOwn_foldKeys {V : Type} (c : RContainer V) (j : ID) :
    ∀ (ks : List ID), (∀ k, k ∈ ks → k ≠ ID.str "__proto__") →
      ∀ (m : RContainer V),
      lookupOwn ((ks.foldl (fun m id =>
          match c.readPropOf id with
          | some (RProp.factory f) => m.bind id f
          | _ => m) m).ownOf) j
        = if j ∈ ks ∧ (lookupOwn c.ownOf j).isSome then lookupOwn c.ownOf j
          else lookupOwn m.ownOf j := by
  intro ks
  induction ks with
  | nil =>
    intro _ m
    simp
  | cons k rest ih =>
    intro hk m
    have hkp : k ≠ ID.str "__proto__" := hk k (by simp)
    have hrest : ∀ k2, k2 ∈ rest → k2 ≠ ID.str "__proto__" :=
      fun k2 hk2 => hk k2 (by simp [hk2])
    simp only [List.foldl_cons]
    cases hc : lookupOwn c.ownOf k with
    | some f =>
      have hr : c.readPropOf k = some (RProp.factory f) := by
        simp only [RContainer.readPropOf]
        exact readProp_own_hit c.ownOf k f hc
      simp only [hr]
      rw [ih hrest (m.bind k f), bind_ownOf_of_ne m k f hkp, lookupOwn_setOwn]
      by_cases hrj : j ∈ rest ∧ (lookupOwn c.ownOf j).isSome
      · rw [if_pos hrj, if_pos ⟨List.mem_cons_of_mem k hrj.1, hrj.2⟩]
      · rw [if_neg hrj]
        by_cases hkj : k = j
        · subst hkj
          rw [if_pos rfl, if_pos ⟨List.mem_cons_self k rest, by simp [hc]⟩, hc]
        · rw [if_neg hkj, if_neg (by
            rintro ⟨hmem, hsome⟩
            rcases List.mem_cons.mp hmem with h2 | h2
            · exact hkj h2.symm
            · exact hrj ⟨h2, hsome⟩)]
    | none =>
      have hstep : (match c.readPropOf k with
          | some (RProp.factory f) => m.bind k f
          | _ => m) = m := by
        cases hr : c.readPropOf k with
        | none => rfl
        | some p =>
          cases p with
          | factory f =>
            exfalso
            have hf := (readProp_factory_iff c.ownOf k f).mp hr
            rw [hc] at hf
            cases hf
          | builtin s => rfl
          | protoObject => rfl
      rw [hstep, ih hrest m]
      by_cases hrj : j ∈ rest ∧ (lookupOwn c.ownOf j).isSome
      · rw [if_pos hrj, if_pos ⟨List.mem_cons_of_mem k hrj.1, hrj.2⟩]
      · rw [if_neg hrj, if_neg (by
          rintro ⟨hmem, hsome⟩
          rcases List.mem_cons.mp hmem with h2 | h2
          · rw [h2, hc] at hsome
            cases hsome
          · exact hrj ⟨h2, hsome⟩)]

/-- The key-rebinding fold never touches the parent reference. -/
theorem parentOf_foldKeys {V : Type} (c : RContainer V) :
    ∀ (ks : List ID) (m : RContainer V),
      (ks.foldl (fun m id =>
          match c.readPropOf id with
          | some (RProp.factory f) => m.bind id f
          | _ => m) m).parentOf = m.parentOf := by
  intro ks
  induction ks with
  | nil => intro m; rfl
  | cons k rest ih =>
    intro m
    simp only [List.foldl_cons]
    cases hr : c.readPropOf k with
    | none => rw [ih m]
    | some p =>
      cases p with
      | factory f =>
        rw [ih (m.bind k f), bind_parentOf]
      | builtin s => rw [ih m]
      | protoObject => rw [ih m]

/-- Over `__proto__`-free keys, the rebinding fold keeps the prototype flag. -/
theorem protoIntact_foldKeys {V : Type} (c : RContainer V) :
    ∀ (ks : List ID), (∀ k, k ∈ ks → k ≠ ID.str "__proto__") →
      ∀ (m : RContainer V),
      (ks.foldl (fun m id =>
          match c.readPropOf id with
          | some (RProp.factory f) => m.bind id f
          | _ => m) m).protoIntactOf = m.protoIntactOf := by
  intro ks
  induction ks with
  | nil => intro _ m; rfl
  | cons k rest ih =>
    intro hk m
    have hkp : k ≠ ID.str "__proto__" := hk k (by simp)
    have hrest : ∀ k2, k2 ∈ rest → k2 ≠ ID.str "__proto__" :=
      fun k2 hk2 => hk k2 (by simp [hk2])
    simp only [List.foldl_cons]
    cases hr : c.readPropOf k with
    | none => rw [ih hrest m]
    | some p =>
      cases p with
      | factory f =>
        rw [ih hrest (m.bind k f), bind_protoIntact_of_ne m k f hkp]
      | builtin s => rw [ih hrest m]
      | protoObject => rw [ih hrest m]

/-- Rebinding all own bindings of a `__proto__`-clean `c` into `m`
overwrites exactly at `c`'s own keys. -/
theorem lookupOwn_bindAllFrom {V : Type} (c m : RContainer V) (j : ID)
    (hwf : recordWF c.ownOf) :
    lookupOwn ((c.bindAllFrom m).ownOf) j
      = match lookupOwn c.ownOf j with
        | some f => some f
        | none => lookupOwn m.ownOf j := by
  simp only [RContainer.bindAllFrom]
  rw [lookupOwn_foldKeys c j c.getBindingIds (getBindingIds_ne_proto c hwf) m]
  cases hc : lookupOwn c.ownOf j with
  | some f =>
    rw [if_pos ⟨(mem_getBindingIds_iff c j).mpr (by simp [hc]), by simp [hc]⟩]
  | none =>
    rw [if_neg (by
      rintro ⟨hmem, hsome⟩
      simp at hsome)]

/-- `bindAllFrom` never touches the parent reference. -/
theorem parentOf_bindAllFrom {V : Type} (c m : RContainer V) :
    (c.bindAllFrom m).parentOf = m.parentOf := by
  simp only [RContainer.bindAllFrom]
  exact parentOf_foldKeys c c.getBindingIds m

/-- For a `__proto__`-clean source, `bindAllFrom` keeps the prototype flag. -/
theorem protoIntact_bindAllFrom {V : Type} (c m : RContainer V)
    (hwf : recordWF c.ownOf) :
    (c.bindAllFrom m).protoIntactOf = m.protoIntactOf := by
  simp only [RContainer.bindAllFrom]
  exact protoIntact_foldKeys c c.getBindingIds (getBindingIds_ne_proto c hwf) m

/-- Own lookup through the `merge` fold is the last own hit among the inputs. -/
theorem lookupOwn_mergeFold {V : Type} (j : ID) :
    ∀ (cs : List (RContainer V)), (∀ c, c ∈ cs → recordWF c.ownOf) →
      ∀ (m : RContainer V),
      lookupOwn ((cs.foldl (fun acc c => c.bindAllFrom acc) m).ownOf) j
        = cs.foldl (fun acc c =>
            match lookupOwn c.ownOf j with
            | some f => some f
            | none => acc) (lookupOwn m.ownOf j) := by
  intro cs
  induction cs with
  | nil => intro _ m; rfl
  | cons c rest ih =>
    intro hwf m
    simp only [List.foldl_cons]
    rw [ih (fun d hd => hwf d (by simp [hd])) (c.bindAllFrom m),
      lookupOwn_bindAllFrom c m j (hwf c (by simp))]

/-- The `merge` fold preserves the parent reference of its seed. -/
theorem parentOf_mergeFold {V : Type} :
    ∀ (cs : List (RContainer V)) (m : RContainer V),
      (cs.foldl (fun acc c => c.bindAllFrom acc) m).parentOf = m.parentOf := by
  intro cs
  induction cs with
  | nil => intro m; rfl
  | cons c rest ih =>
    intro m
    simp only [List.foldl_cons]
    rw [ih (c.bindAllFrom m), parentOf_bindAllFrom]

/-- Over `__proto__`-clean inputs, the `merge` fold preserves the prototype
flag of its seed. -/
theorem protoIntact_mergeFold {V : Type} :
    ∀ (cs : List (RContainer V)), (∀ c, c ∈ cs → recordWF c.ownOf) →
      ∀ (m : RContainer V),
      (cs.foldl (fun acc c => c.bindAllFrom acc) m).protoIntactOf
        = m.protoIntactOf := by
  intro cs
  induction cs with
  | nil => intro _ m; rfl
  | cons c rest ih =>
    intro hwf m
    simp only [List.foldl_cons]
    rw [ih (fun d hd => hwf d (by simp [hd])) (c.bindAllFrom m),
      protoIntact_bindAllFrom c m (hwf c (by simp))]

/-- An own binding resolves through `_get` to its factory: the own entry
shadows both the prototype chain and the parent. -/
theorem rFind_own_hit {V : Type} (c : RContainer V) (j : ID) (f : RFactory V)
    (h : lookupOwn c.ownOf j = some f) :
    c.rFind j = some (RProp.factory f) := by
  cases c with
  | mk own pr p =>
    simp only [RContainer.rFind]
    rw [readProp_own_hit own j f h]


/-!
Claim theorems.
-/

/-- C1: `resolve(id)`/`get(id)` selects its factory by searching the local
mapping first and then the ancestors depth-first in list order, each ancestor
searched fully before the next sibling, taking the first match: `findBinding`
equals the first local hit along the flattened self-then-ancestors priority
order, and `get` selects its factory by exactly that first hit. Local
bindings therefore beat every ancestor binding and earlier-added ancestors
beat later-added ones, deterministically. -/
theorem claim1_resolution_order {V : Type} (c : Container V) (id : ID) :
    c.findBinding id = firstMatchIn c.flattenOrder id
    ∧ ∀ (fuel : Nat), c.get fuel id
        = (match firstMatchIn c.flattenOrder id with
            | none => Except.error (RErr.bindingNotFound id)
            | some f =>
              match fuel with
              | 0 => Except.error RErr.outOfFuel
              | n + 1 => f (fun j => c.get n j)) := by
  refine ⟨findBinding_eq_firstMatch c id, fun fuel => ?_⟩
  rw [Container.get.eq_def, findBinding_eq_firstMatch c id]

/-- C2 (the Record-backed variant contradicts it): on the canonical
Map-backed engine, resolving the unregistered `toString` on an empty root
raises binding-not-found carrying that id (second conjunct), as the claim
and the variant's own documentation demand. But the Record-backed
`container.ts` variant resolves the unregistered `toString` to the inherited
`Object.prototype.toString` through the record's prototype chain, passes the
`typeof dependency !== "function"` guard and invokes it, so the caller gets
that built-in's outcome instead of a `BindingNotFoundError` (first
conjunct). Ordinary unregistered ids still raise there (third conjunct). -/
theorem claim2_record_prototype_leak :
    (∀ (fuel : Nat), rEmpty.rGet fuel (.str "toString")
        = ROutcome.builtinInvoked "toString")
    ∧ (∀ (fuel : Nat), c2empty.get fuel (.str "toString")
        = .error (.bindingNotFound (.str "toString")))
    ∧ (∀ (fuel : Nat), rEmpty.rGet fuel (.str "missing")
        = ROutcome.err (.bindingNotFound (.str "missing"))) := by
  refine ⟨fun fuel => ?_, fun fuel => ?_, fun fuel => ?_⟩
  · rw [RContainer.rGet.eq_def]
    rfl
  · rw [Container.get.eq_def]
    rfl
  · rw [RContainer.rGet.eq_def]
    rfl

/-- C3: when `get(id)` on container `c` resolves a factory that is not bound
locally (so it was found in an ancestor), the factory is invoked with the
request capability bound to `c` itself — the original container — so every
identifier the factory requests is re-resolved from `c`, making `c`-local
overrides visible to ancestor-registered factories. -/
theorem claim3_context_bound_to_origin {V : Type} (c : Container V) (fuel : Nat)
    (id : ID) (f : Factory V) (hlocal : c.isRegisteredHere id = false)
    (hfound : c.findBinding id = some f) :
    c.get (fuel + 1) id = f (fun j => c.get fuel j) := by
  clear hlocal
  rw [Container.get.eq_def, hfound]

/-- Witness for C3: `x` is bound only in `c3parent` as a factory requesting
`y`; resolving `x` on `c3child` (which overrides `y` to 2) yields 2, the
child's binding, because the request runs against the child. -/
theorem claim3_context_bound_to_origin_witness :
    c3child.isRegisteredHere (.str "x") = false
    ∧ c3child.findBinding (.str "x") = some (requestFactory (.str "y"))
    ∧ c3child.get 2 (.str "x") = .ok 2 := by
  refine ⟨rfl, rfl, ?_⟩
  exact (claim3_context_bound_to_origin c3child 1 (.str "x")
    (requestFactory (.str "y")) rfl rfl).trans rfl

/-- C4: `merge(...containers)` yields a registry with no ancestors — a
fresh record with intact prototype — whose own content is exactly the union
of the inputs' own (local) bindings applied in input order, the last input
binding an identifier winning, never consulting any input's ancestors; and
every merged identifier resolves through `_get` to the copied factory (the
own entry shadows the prototype chain and there is no parent). The inputs
range over the records reachable through the source API: their own keys
cannot include `__proto__`, since the assignment in `bind` hits the
inherited setter instead of creating an entry. The merged content is
determined by the inputs' own bindings at merge time alone, which is the
pure-embedding rendering of immunity to later input mutation. -/
theorem claim4_merge_copies_locals {V : Type} (cs : List (RContainer V)) (j : ID)
    (hwf : ∀ c, c ∈ cs → recordWF c.ownOf) :
    (RContainer.merge cs).parentOf = none
    ∧ (RContainer.merge cs).protoIntactOf = true
    ∧ lookupOwn (RContainer.merge cs).ownOf j = lastOwn cs j
    ∧ (∀ f, lastOwn cs j = some f
        → (RContainer.merge cs).rFind j = some (RProp.factory f)) := by
  have hl : lookupOwn (RContainer.merge cs).ownOf j = lastOwn cs j := by
    simp only [RContainer.merge, lastOwn]
    rw [lookupOwn_mergeFold j cs hwf (.mk [] true none)]
    rfl
  refine ⟨?_, ?_, hl, fun f hf => rFind_own_hit _ j f (hl.trans hf)⟩
  · simp only [RContainer.merge]
    rw [parentOf_mergeFold cs (.mk [] true none)]
    rfl
  · simp only [RContainer.merge]
    rw [protoIntact_mergeFold cs hwf (.mk [] true none)]
    rfl

/-- Witness for C4: merging `rA` and `rB`, which both bind `d`, yields a
parentless container whose own binding for `d` is `rB`'s factory — the
later input wins — and resolving `d` on the merged container finds exactly
that factory. -/
theorem claim4_merge_copies_locals_witness :
    (∀ c, c ∈ [rA, rB] → recordWF c.ownOf)
    ∧ (RContainer.merge [rA, rB]).parentOf = none
    ∧ lookupOwn (RContainer.merge [rA, rB]).ownOf (.str "d") = some rFac2
    ∧ (RContainer.merge [rA, rB]).rFind (.str "d") = some (RProp.factory rFac2) := by
  have hwf : ∀ c, c ∈ [rA, rB] → recordWF c.ownOf := by
    intro c hc
    simp only [List.mem_cons, List.not_mem_nil, or_false] at hc
    rcases hc with rfl | rfl
    · show ID.str "__proto__" ∉ rA.ownOf.map Prod.fst
      decide
    · show ID.str "__proto__" ∉ rB.ownOf.map Prod.fst
      decide
  refine ⟨hwf, (claim4_merge_copies_locals [rA, rB] (.str "d") hwf).1, ?_, ?_⟩
  · exact ((claim4_merge_copies_locals [rA, rB] (.str "d") hwf).2.2.1).trans rfl
  · exact (claim4_merge_copies_locals [rA, rB] (.str "d") hwf).2.2.2 rFac2 rfl

/-- C5: `extend` appends each argument identity to the parents list only if
not already present, preserving relative order of first appearance (the
closed form), and is idempotent: re-extending with the same arguments
changes nothing, so an identity added twice appears exactly once, at the
position of its first addition. -/
theorem claim5_extend_dedup_idem (ps args : List Nat) :
    extendParents ps args = ps ++ (dedupFirst args).filter (fun c => decide (c ∉ ps))
    ∧ extendParents (extendParents ps args) args = extendParents ps args :=
  ⟨extendParents_closed ps args, extendParents_idem ps args⟩

/-- C6: `get(id)` returns the resolved factory's produced value unmodified
and performs no memoization: every call with a resolved factory `f` is
exactly one fresh invocation `f (request)`; nothing is cached between calls,
so a later call re-invokes the factory against the then-current state. -/
theorem claim6_no_memoization {V : Type} (c : Container V) (fuel : Nat) (id : ID)
    (f : Factory V) (hfound : c.findBinding id = some f) :
    c.get (fuel + 1) id = f (fun j => c.get fuel j) := by
  rw [Container.get.eq_def, hfound]

/-- Witness for C6: the same factory for `a` (requesting `b`) is re-invoked
by each call; after re-registering `b`, a second `get` observes the new
binding instead of reusing the first call's value. -/
theorem claim6_no_memoization_witness :
    c6base.findBinding (.str "a") = some (requestFactory (.str "b"))
    ∧ c6mut.findBinding (.str "a") = some (requestFactory (.str "b"))
    ∧ c6base.get 2 (.str "a") = .ok 1
    ∧ c6mut.get 2 (.str "a") = .ok 2 := by
  refine ⟨rfl, rfl, ?_, ?_⟩
  · exact (claim6_no_memoization c6base 1 (.str "a")
      (requestFactory (.str "b")) rfl).trans rfl
  · exact (claim6_no_memoization c6mut 1 (.str "a")
      (requestFactory (.str "b")) rfl).trans rfl

/-- C7: `isRegisteredHere(id)` is true iff the local mapping contains `id`,
ignoring ancestors; `isRegistered(id)` is true iff `isRegisteredHere(id)` or
some parent recursively reports true, which coincides with any-local-hit
along the depth-first flattened priority order. -/
theorem claim7_isRegistered_characterization {V : Type} (c : Container V) (id : ID) :
    c.isRegisteredHere id = (c.localBindings id).isSome
    ∧ c.isRegistered id
        = (c.isRegisteredHere id || (c.parentsOf).any (fun p => p.isRegistered id))
    ∧ c.isRegistered id = c.flattenOrder.any (fun d => d.isRegisteredHere id) := by
  refine ⟨rfl, ?_, isRegistered_eq_anyFlatten c id⟩
  cases c with
  | mk bs ps =>
    simp only [Container.isRegistered, Container.parentsOf]
    rw [isRegisteredList_eq_any]

/-- C8: `remove(id)` deletes exactly the local entry for `id`: the parents
list is untouched, every other local binding is untouched, and when `id` is
absent locally the container is left completely unchanged (a no-op, not an
error). -/
theorem claim8_remove_frame {V : Type} (c : Container V) (id : ID) :
    (c.remove id).parentsOf = c.parentsOf
    ∧ (c.remove id).localBindings id = none
    ∧ (∀ j, j ≠ id → (c.remove id).localBindings j = c.localBindings j)
    ∧ (c.localBindings id = none → c.remove id = c) := by
  cases c with
  | mk bs ps =>
    refine ⟨rfl, ?_, fun j hj => ?_, fun habs => ?_⟩
    · simp [Container.remove, Container.localBindings]
    · simp [Container.remove, Container.localBindings, hj]
    · simp only [Container.localBindings] at habs
      simp only [Container.remove, Container.mk.injEq]
      refine ⟨funext fun j => ?_, trivial⟩
      by_cases hji : j = id
      · subst hji
        rw [if_pos rfl, habs]
      · rw [if_neg hji]

/-- Witness for C8: removing the unbound `b` from `c8ex` keeps `a`'s binding
and leaves the container unchanged. -/
theorem claim8_remove_frame_witness :
    ID.str "a" ≠ ID.str "b"
    ∧ (c8ex.remove (.str "b")).localBindings (.str "a") = c8ex.localBindings (.str "a")
    ∧ c8ex.localBindings (.str "b") = none
    ∧ c8ex.remove (.str "b") = c8ex := by
  refine ⟨by decide, ?_, rfl, ?_⟩
  · exact (claim8_remove_frame c8ex (.str "b")).2.2.1 (.str "a") (by decide)
  · exact (claim8_remove_frame c8ex (.str "b")).2.2.2 rfl

/-- C9: the binding-not-found error is constructed with the offending
identifier, and its message embeds that identifier's display form; on an
empty root registry, resolving `missing` fails with binding-not-found for
`missing`, whose message is exactly the string
`Binding "missing" not found!`, which contains `missing`. -/
theorem claim9_not_found_message :
    (∀ (fuel : Nat), c9empty.get fuel (.str "missing")
        = .error (.bindingNotFound (.str "missing")))
    ∧ bindingNotFoundMessage (.str "missing") = "Binding \"missing\" not found!"
    ∧ ∃ pre post, bindingNotFoundMessage (.str "missing") = pre ++ "missing" ++ post := by
  refine ⟨fun fuel => ?_, rfl, ⟨"Binding \"", "\" not found!", rfl⟩⟩
  rw [Container.get.eq_def]
  rfl

/-- C10: resolution and the registration checks are read-only with respect
to engine state: the state-threading renderings of `get`, `isRegistered` and
`isRegisteredHere` hand back the container exactly as received — on success
and on binding-not-found alike — while computing the same results as the
pure operations. -/
theorem claim10_resolution_readonly {V : Type} (c : Container V) (fuel : Nat) (id : ID) :
    (c.getS fuel id).2 = c
    ∧ (c.getS fuel id).1 = c.get fuel id
    ∧ (c.isRegisteredS id).2 = c
    ∧ (c.isRegisteredS id).1 = c.isRegistered id
    ∧ (c.isRegisteredHereS id).2 = c
    ∧ (c.isRegisteredHereS id).1 = c.isRegisteredHere id :=
  ⟨getS_snd c fuel id, getS_fst c fuel id, rfl, rfl, rfl, rfl⟩

end Tinioc
